import Mathlib

/-!
Verification of the Proxmox-B2 backup dashboard engine (`gui/app.py`).

The Python floating-point values are modelled as exact rationals (`ℚ`);
machine floats of this program stay far inside the range where the two
agree on every claim checked here.  Rational arithmetic is expressed with
the kernel-computable wrappers `qadd`, `qmul`, `qdiv` below; the lemmas
`qadd_eq`, `qmul_eq`, `qdiv_eq` show they are exactly ℚ's `+`, `*`, `/`.

External subprocesses (journalctl, rclone, the filesystem) are modelled as
the data they deliver: a journal fetch is its list of lines, a directory is
the list of its entries (`none` when the path does not exist), and the
remote lister is the triple (exit code, stdout, stderr) together with the
JSON decoding of stdout.  Functions that can raise a Python exception
return an `Option`, `none` being the raised exception.
-/

set_option maxRecDepth 16384

namespace ProxmoxB2

/-- ℚ addition, computed through `Rat.divInt` so that it evaluates inside
the kernel.  `qadd_eq` proves it equal to `+`. -/
def qadd (a b : ℚ) : ℚ := Rat.divInt (a.num * b.den + b.num * a.den) (a.den * b.den)

/-- ℚ multiplication through `Rat.divInt`; `qmul_eq` proves it equal to `*`. -/
def qmul (a b : ℚ) : ℚ := Rat.divInt (a.num * b.num) (a.den * b.den)

/-- ℚ division through `Rat.divInt`; `qdiv_eq` proves it equal to `/`. -/
def qdiv (a b : ℚ) : ℚ := Rat.divInt (a.num * b.den) (a.den * b.num)

/-- Models CPython's one-decimal fixed formatting `"%.1f"` over exact
rationals: round-half-even on the first decimal digit, a leading minus for
negative values.  CPython agrees on every float whose value is exactly
representable (all values reached by the claims checked here). -/
def fmtFixed1 (q : ℚ) : String :=
  let sgn := if q.num < 0 then "-" else ""
  let a : ℕ := q.num.natAbs
  let d : ℕ := q.den
  let fl : ℕ := 10 * a / d
  let rem : ℕ := 10 * a % d
  let r : ℕ :=
    if 2 * rem < d then fl
    else if d < 2 * rem then fl + 1
    else if fl % 2 = 0 then fl else fl + 1
  sgn ++ toString (r / 10) ++ "." ++ toString (r % 10)

/-- `human_size` from `gui/app.py`, one loop step: the source iterates over
the unit list `["B", "KB", "MB", "GB", "TB"]`, returning `f"{num:3.1f} {unit}"`
as soon as `num < 1024.0` and dividing `num` by `1024.0` otherwise; after the
loop it returns `f"{num:.1f} PB"`.  The `3` in the width spec never pads: a
nonnegative value rendered with one decimal is at least three characters. -/
def human_size_go (num : ℚ) : List String → String
  | [] => fmtFixed1 num ++ " PB"
  | unit :: units =>
    if num < 1024 then fmtFixed1 num ++ " " ++ unit
    else human_size_go (qdiv num 1024) units

/-- `human_size` from `gui/app.py`. -/
def human_size (num : ℚ) : String :=
  human_size_go num ["B", "KB", "MB", "GB", "TB"]

/-- Python's `pat in s` substring test. -/
def str_contains_sub (s pat : String) : Bool :=
  (List.range (s.toList.length + 1)).any (fun i => pat.toList.isPrefixOf (s.toList.drop i))

/-- Split a character list at the first occurrence of `sep`; `none` when
`sep` does not occur. -/
def split_first_char (sep : Char) : List Char → Option (List Char × List Char)
  | [] => none
  | c :: cs =>
    if c = sep then some ([], cs)
    else (split_first_char sep cs).map (fun p => (c :: p.1, p.2))

/-- Python's `s.split(" ", 1)` when it yields two fields, i.e. when `s`
contains a space.  `none` models the `ValueError` that the source's
`ts, msg = line.split(" ", 1)` raises on a line without a space. -/
def split_space1 (s : String) : Option (String × String) :=
  (split_first_char ' ' s.toList).map (fun p => (String.mk p.1, String.mk p.2))

/-- Python's `s.split(" ", 2)[-1]`: everything after the second space, or
after the first when there is only one, or `s` itself with no space. -/
def split2_last (s : String) : String :=
  match split_space1 s with
  | none => s
  | some (_, rest) =>
    match split_space1 rest with
    | none => rest
    | some (_, rest2) => rest2

/-- Python's `s.startswith(p)`. -/
def str_starts_with (s p : String) : Bool := p.toList.isPrefixOf s.toList

/-- Python's lexicographic `<` on strings (code-point order). -/
def chars_lt : List Char → List Char → Bool
  | [], [] => false
  | [], _ :: _ => true
  | _ :: _, [] => false
  | a :: as, b :: bs => if a < b then true else if b < a then false else chars_lt as bs

/-- Python's lexicographic `<` on strings. -/
def str_lt (a b : String) : Bool := chars_lt a.toList b.toList

/-- Gregorian leap year, as `datetime` uses it. -/
def is_leap (y : ℕ) : Bool := y % 4 = 0 && (y % 100 ≠ 0 || y % 400 = 0)

/-- Length of a month, as `datetime` validates it. -/
def days_in_month (y m : ℕ) : ℕ :=
  if m = 2 then (if is_leap y then 29 else 28)
  else if m = 4 || m = 6 || m = 9 || m = 11 then 30
  else 31

/-- Days in year `y` before the first of month `m` (1-based). -/
def days_before_month (y m : ℕ) : ℕ :=
  [0, 0, 31, 59, 90, 120, 151, 181, 212, 243, 273, 304, 334].getD m 0
    + (if 2 < m && is_leap y then 1 else 0)

/-- `datetime.toordinal`: proleptic-Gregorian ordinal of a date, day 1 being
0001-01-01. -/
def toordinal (y m d : ℕ) : ℕ :=
  365 * (y - 1) + (y - 1) / 4 - (y - 1) / 100 + (y - 1) / 400 + days_before_month y m + d

/-- Value of a decimal digit character. -/
def digit? (c : Char) : Option ℕ :=
  if c.isDigit then some (c.toNat - 48) else none

/-- Two decimal digits. -/
def two_digits (a b : Char) : Option ℕ := do
  let x ← digit? a
  let y ← digit? b
  pure (10 * x + y)

/-- Models `datetime.fromisoformat` on the timestamp shape this program
meets, `YYYY-MM-DDTHH:MM:SS`, returning the instant as a count of seconds
(86400 per ordinal day).  Field validation follows `datetime`: year ≥ 1,
month 1–12, day within the month, hour ≤ 23, minute and second ≤ 59.
Strings of any other shape are modelled as a parse failure (`none`, the
`ValueError` caught by the source).  Python versions differ on which
further ISO-8601 forms they accept; no claim here depends on those. -/
def fromisoformat (s : String) : Option ℕ :=
  match s.toList with
  | [y1, y2, y3, y4, h1, mo1, mo2, h2, d1, d2, sep, ho1, ho2, c1, mi1, mi2, c2, s1, s2] =>
    if h1 = '-' && h2 = '-' && sep = 'T' && c1 = ':' && c2 = ':' then
      match two_digits y1 y2, two_digits y3 y4, two_digits mo1 mo2, two_digits d1 d2,
          two_digits ho1 ho2, two_digits mi1 mi2, two_digits s1 s2 with
      | some yh, some yl, some mo, some da, some ho, some mi, some se =>
        let y := 100 * yh + yl
        if 1 ≤ y && 1 ≤ mo && mo ≤ 12 && 1 ≤ da && da ≤ days_in_month y mo
            && ho ≤ 23 && mi ≤ 59 && se ≤ 59 then
          some (toordinal y mo da * 86400 + ho * 3600 + mi * 60 + se)
        else none
      | _, _, _, _, _, _, _ => none
    else none
  | _ => none

/-- Zero-padded two-digit decimal rendering (`%02d`). -/
def pad2 (n : ℕ) : String :=
  if n < 10 then "0" ++ toString n else toString n

/-- Zero-padded four-digit decimal rendering (`%04d`, glibc's `%Y`). -/
def pad4 (n : ℕ) : String :=
  if n < 10 then "000" ++ toString n
  else if n < 100 then "00" ++ toString n
  else if n < 1000 then "0" ++ toString n
  else toString n

/-- Calendar date of a day count since the Unix epoch (Hinnant's
`civil_from_days`). -/
def civil_from_days (z0 : ℤ) : ℕ × ℕ × ℕ :=
  let z := z0 + 719468
  let era := Int.fdiv z 146097
  let doe : ℕ := (z - era * 146097).toNat
  let yoe : ℕ := (doe - doe / 1460 + doe / 36524 - doe / 146096) / 365
  let doy : ℕ := doe - (365 * yoe + yoe / 4 - yoe / 100)
  let mp : ℕ := (5 * doy + 2) / 153
  let d : ℕ := doy - (153 * mp + 2) / 5 + 1
  let m : ℕ := if mp < 10 then mp + 3 else mp - 9
  let y : ℤ := yoe + era * 400 + (if m ≤ 2 then 1 else 0)
  (y.toNat, m, d)

/-- Models `time.strftime("%Y-%m-%d %H:%M:%S", time.gmtime(t))` on a
whole-second epoch timestamp. -/
def strftime_gmtime (t : ℤ) : String :=
  let days := Int.fdiv t 86400
  let secs : ℕ := (t - days * 86400).toNat
  let ymd := civil_from_days days
  pad4 ymd.1 ++ "-" ++ pad2 ymd.2.1 ++ "-" ++ pad2 ymd.2.2 ++ " "
    ++ pad2 (secs / 3600) ++ ":" ++ pad2 (secs % 3600 / 60) ++ ":" ++ pad2 (secs % 60)

/-- One classified journal line, the `{"time": ts, "note": ..., "line": line}`
dict built by `recent_runs`.  `note` is the tag `"start"`, `"done"` or
`"fail"`. -/
structure Entry where
  time : String
  note : String
  line : String
deriving DecidableEq

/-- One reconstructed run, the dict appended to `runs` by `recent_runs`. -/
structure Run where
  time : String
  status : String
  duration : String
  note : String
deriving DecidableEq

/-- The `if/elif` marker chain of `recent_runs`: which tag, if any, a
journal line gets. -/
def classify (line : String) : Option String :=
  if str_contains_sub line "Starting" then some "start"
  else if str_contains_sub line "Done." || str_contains_sub line "Deactivated successfully" then
    some "done"
  else if str_contains_sub line "Failed to start" || str_contains_sub line "exit-code" then
    some "fail"
  else none

/-- The entry-building loop of `recent_runs` over the already-reversed
lines.  A classified line is split at its first space into timestamp and
message; `none` models the uncaught `ValueError` of
`ts, msg = line.split(" ", 1)` on a classified line with no space, which
aborts the whole call. -/
def mk_entries : List String → Option (List Entry)
  | [] => some []
  | line :: rest =>
    match classify line with
    | none => mk_entries rest
    | some tag =>
      match split_space1 line with
      | none => none
      | some (ts, _) => (mk_entries rest).map (fun es => ⟨ts, tag, line⟩ :: es)

/-- The duration computation of `recent_runs`: the `try` block parses both
timestamps and renders `f"{(t_end - t_start).total_seconds():.1f}s"`; any
exception yields `"n/a"`. -/
def durOf (ts te : String) : String :=
  match fromisoformat ts, fromisoformat te with
  | some a, some b => fmtFixed1 ((b : ℤ) - (a : ℤ) : ℤ) ++ "s"
  | _, _ => "n/a"

/-- The run record `recent_runs` appends when a terminal entry `e` meets the
pending start `s`. -/
def mk_run (s e : Entry) : Run :=
  { time := s.time
  , status := if e.note = "done" then "ok" else "fail"
  , duration := durOf s.time e.time
  , note := (split2_last e.line).take 80 }

/-- The pairing loop of `recent_runs`: walk the entries keeping one pending
start; a terminal entry with a pending start emits a run and clears it.
`k` is `len(runs)` so far; the loop breaks as soon as `len(runs) >=
max_items` (checked after each element, as in the source). -/
def pair_runs (max_items : ℕ) : List Entry → Option Entry → ℕ → List Run
  | [], _, _ => []
  | e :: es, start, k =>
    if e.note = "start" then
      if max_items ≤ k then [] else pair_runs max_items es (some e) k
    else if e.note = "done" ∨ e.note = "fail" then
      match start with
      | some s =>
        mk_run s e :: (if max_items ≤ k + 1 then [] else pair_runs max_items es none (k + 1))
      | none => if max_items ≤ k then [] else pair_runs max_items es none k
    else
      if max_items ≤ k then [] else pair_runs max_items es start k

/-- `recent_runs` from `gui/app.py`, applied to the journal lines the log
source delivered (the `journalctl` invocation itself is the external log
source; on its failure the source returns `[]` before this code runs).
The source iterates `reversed(out.splitlines())`, hence the `.reverse`.
`none` models an uncaught exception escaping the call. -/
def recent_runs (lines : List String) (max_items : ℕ) : Option (List Run) :=
  (mk_entries lines.reverse).map (fun entries => pair_runs max_items entries none 0)

/-- A Python scalar value stored in one of the item dicts. -/
inductive Val where
  | num : ℚ → Val
  | str : String → Val
  | null : Val
deriving DecidableEq

/-- An item dict: association list in insertion order, keys unique. -/
abbrev Dict := List (String × Val)

/-- Python `d[k]` lookup (first binding). -/
def dget : Dict → String → Option Val
  | [], _ => none
  | p :: rest, k => if p.1 = k then some p.2 else dget rest k

/-- Python `d[k] = v`: replace the binding in place, else append (dicts
preserve insertion order). -/
def dset (d : Dict) (k : String) (v : Val) : Dict :=
  match d with
  | [] => [(k, v)]
  | p :: rest => if p.1 = k then (k, v) :: rest else p :: dset rest k v

/-- Python `d.get(k, default)` followed by use as a number: `none` models
the `TypeError` raised when the stored value is not numeric. -/
def dget_num (d : Dict) (k : String) (dflt : ℚ) : Option ℚ :=
  match dget d k with
  | none => some dflt
  | some (Val.num q) => some q
  | some _ => none

/-- The numeric value stored under key `k`, 0 when absent or non-numeric;
used to state what the per-item `est_storage` / `est_egress` annotations
contain. -/
def est_val (k : String) (d : Dict) : ℚ :=
  match dget d k with
  | some (Val.num q) => q
  | _ => 0

/-- `storage_rate` from `cost_estimates` (`0.005  # per GB-month`). -/
def storage_rate : ℚ := Rat.divInt 5 1000

/-- `egress_rate` from `cost_estimates` (`0.01  # per GB downloaded`). -/
def egress_rate : ℚ := Rat.divInt 1 100

/-- Per-item body of the `cost_estimates` loop: `size_gb = size_bytes /
(1024*1024*1024)`, both costs, and the annotated copy `dict(it)` with
`est_storage` and `est_egress` set. -/
def cost_item (it : Dict) (size_bytes : ℚ) : Dict × ℚ × ℚ :=
  let size_gb := qdiv size_bytes 1073741824
  let storage := qmul size_gb storage_rate
  let egress := qmul size_gb egress_rate
  (dset (dset it "est_storage" (Val.num storage)) "est_egress" (Val.num egress), storage, egress)

/-- `cost_estimates` from `gui/app.py`: returns the annotated copies and the
two running totals.  `none` models the `TypeError` on a non-numeric
`size` value.  The source accumulates the totals left to right with float
`+=`; over exact rationals the grouping is immaterial. -/
def cost_estimates : List Dict → Option (List Dict × ℚ × ℚ)
  | [] => some ([], 0, 0)
  | it :: rest =>
    match dget_num it "size" 0, cost_estimates rest with
    | some size_bytes, some (est, ts, te) =>
      let r := cost_item it size_bytes
      some (r.1 :: est, qadd r.2.1 ts, qadd r.2.2 te)
    | _, _ => none

/-- A dict whose `size` binding, if any, is numeric — exactly the dicts on
which `cost_estimates` cannot raise.  Every item dict this program builds
satisfies it. -/
def size_ok (d : Dict) : Bool := (dget_num d "size" 0).isSome

/-- A heap of dicts; an address is an index into the list.  This models
Python's object identities for the aliasing claim about `cost_estimates`:
the input list holds references into the heap, `dict(it)` allocates a fresh
dict, and the `est_*` assignments mutate only that fresh dict. -/
abbrev Store := List Dict

/-- `cost_estimates` with explicit object identity: takes the heap and the
input references, returns the new heap, the references making up `est`,
and the totals.  Each loop step reads `store[r]`, allocates the annotated
copy at a fresh address, and never writes to an existing address. -/
def cost_estimates_heap : Store → List ℕ → Option (Store × List ℕ × ℚ × ℚ)
  | store, [] => some (store, [], 0, 0)
  | store, r :: rest =>
    match store.get? r with
    | none => none
    | some it =>
      match dget_num it "size" 0 with
      | none => none
      | some size_bytes =>
        let c := cost_item it size_bytes
        match cost_estimates_heap (store ++ [c.1]) rest with
        | none => none
        | some (store2, refs, ts, te) =>
          some (store2, store.length :: refs, qadd c.2.1 ts, qadd c.2.2 te)

/-- Stable insertion: place `x` before the first element `y` with
`goes_before x y`.  Folding it over a list is exactly a stable sort, the
order Python's stable `sorted` produces for the strict order `goes_before`. -/
def stable_insert (goes_before : α → α → Bool) (x : α) : List α → List α
  | [] => [x]
  | y :: ys => if goes_before x y then x :: y :: ys else y :: stable_insert goes_before x ys

/-- Stable sort by the strict order `goes_before` (insertion sort; agrees
with Python's `sorted` because both are stable and sorted). -/
def stable_sort (goes_before : α → α → Bool) (l : List α) : List α :=
  l.foldl (fun acc x => stable_insert goes_before x acc) []

/-- Python's `s.endswith(suffix)`. -/
def str_ends_with (s suf : String) : Bool := suf.toList.isSuffixOf s.toList

/-- One entry of a local backup directory, as `pathlib` exposes it to
`list_local` (modification time modelled in whole seconds). -/
structure LocalFile where
  name : String
  size : ℕ
  mtime : ℤ
deriving DecidableEq

/-- The `{"count": ..., "size": ..., "items": [...]}` dict `list_local`
returns. -/
structure LocalRes where
  count : ℕ
  size : ℕ
  items : List Dict
deriving DecidableEq

/-- The `{"name": ..., "size": ..., "mtime": ...}` item dict of
`list_local`. -/
def local_item (f : LocalFile) : Dict :=
  [("name", Val.str f.name), ("size", Val.num f.size), ("mtime", Val.num f.mtime)]

/-- `sorted(p.glob("*.tar.gz"))`: the directory entries matching the
pattern, in ascending path order (within one directory, name order). -/
def tar_gz_matches (files : List LocalFile) : List LocalFile :=
  stable_sort (fun a b => str_lt a.name b.name) (files.filter (fun f => str_ends_with f.name ".tar.gz"))

/-- `list_local` from `gui/app.py`.  The directory is modelled as the list
of its entries, `none` when `p.exists()` is false. -/
def list_local (dir : Option (List LocalFile)) : LocalRes :=
  match dir with
  | none => { count := 0, size := 0, items := [] }
  | some files =>
    let ms := tar_gz_matches files
    { count := ms.length, size := (ms.map (fun f => f.size)).sum, items := ms.map local_item }

/-- One entry below a recursive-listing root, as `p.rglob("*")` yields it
to `list_local_recursive`. -/
structure FsEntry where
  name : String
  path : String
  size : ℕ
  mtime : ℤ
  is_file : Bool
deriving DecidableEq

/-- The sort key of `list_local_recursive`:
`x.stat().st_mtime if x.is_file() else 0`. -/
def fs_sort_key (f : FsEntry) : ℤ := if f.is_file then f.mtime else 0

/-- The item dict `list_local_recursive` appends per file. -/
def fs_item (f : FsEntry) : Dict :=
  [("name", Val.str f.name), ("path", Val.str f.path), ("size", Val.num f.size),
   ("size_h", Val.str (human_size f.size)), ("time", Val.str (strftime_gmtime f.mtime))]

/-- Outcome of the inner loop of `list_local_recursive` over one root:
either the early `return items` on reaching the cap, or fall-through to
the next root. -/
inductive LoopOut where
  | ret : List Dict → LoopOut
  | cont : List Dict → LoopOut
deriving DecidableEq

/-- The inner loop of `list_local_recursive` over one root's (already
sorted) entries: non-files are skipped, each file's item is appended, and
the function returns as soon as `len(items) >= max_items` (checked after
each append).  The `try/except` around `stat` guards a filesystem race the
static model does not exhibit. -/
def llr_files (max_items : ℕ) : List FsEntry → List Dict → LoopOut
  | [], items => .cont items
  | f :: fs, items =>
    if f.is_file then
      let items2 := items ++ [fs_item f]
      if max_items ≤ items2.length then .ret items2 else llr_files max_items fs items2
    else llr_files max_items fs items

/-- The outer loop of `list_local_recursive` over the roots: a non-existent
root (`none`) is skipped; each existing root's entries are sorted by
`st_mtime if is_file else 0`, descending, stably. -/
def llr_roots (max_items : ℕ) : List (Option (List FsEntry)) → List Dict → List Dict
  | [], items => items
  | none :: roots, items => llr_roots max_items roots items
  | some fs :: roots, items =>
    match llr_files max_items (stable_sort (fun a b => decide (fs_sort_key b < fs_sort_key a)) fs) items with
    | .ret items2 => items2
    | .cont items2 => llr_roots max_items roots items2

/-- `list_local_recursive` from `gui/app.py`; each root is modelled as the
list of entries `rglob` yields for it, `none` when the root does not
exist. -/
def list_local_recursive (roots : List (Option (List FsEntry))) (max_items : ℕ) : List Dict :=
  llr_roots max_items roots []

/-- The payload a `LoopOut` carries. -/
def LoopOut.items : LoopOut → List Dict
  | .ret l => l
  | .cont l => l

/-- The item dicts one existing root contributes, before any cap: its
entries sorted newest-`st_mtime`-first (non-files keyed 0), non-files
dropped. -/
def root_items (fs : List FsEntry) : List Dict :=
  ((stable_sort (fun a b => decide (fs_sort_key b < fs_sort_key a)) fs).filter
    (fun f => f.is_file)).map fs_item

/-- All items of all existing roots, in root order, uncapped. -/
def llr_all (roots : List (Option (List FsEntry))) : List Dict :=
  ((roots.filterMap id).map root_items).flatten

/-- The `"time"` string an item dict exposes, used to state ordering
claims about listings. -/
def time_val (d : Dict) : String :=
  match dget d "time" with
  | some (Val.str s) => s
  | _ => ""

/-- Exit code and captured output of an external command, as `run_cmd`
returns them. -/
structure CmdRes where
  code : ℤ
  out : String
  err : String
deriving DecidableEq

/-- One object of the rclone `lsjson` listing; absent JSON keys are
`none`. -/
structure RemoteFile where
  name : Option String
  size : Option ℤ
  modTime : Option String
deriving DecidableEq

/-- The `json.loads` decoding of the listing stdout: the decoded objects,
or the exception message. -/
abbrev JsonDecode := String → Except String (List RemoteFile)

/-- Python's `err or out`. -/
def str_or (a b : String) : String := if a = "" then b else a

/-- The `{"count", "size"[, "error"]}` dict `b2_stats` returns. -/
structure B2Stats where
  count : ℕ
  size : ℤ
  error : Option String
deriving DecidableEq

/-- `b2_stats` from `gui/app.py`, over the provider outcome (the rclone
invocation is the external remote lister). -/
def b2_stats (json_loads : JsonDecode) (res : CmdRes) : B2Stats :=
  if res.code ≠ 0 then { count := 0, size := 0, error := some (str_or res.err res.out) }
  else
    match json_loads res.out with
    | Except.error exc => { count := 0, size := 0, error := some exc }
    | Except.ok files =>
      { count := files.length, size := (files.map (fun f => f.size.getD 0)).sum, error := none }

/-- The `{["error",] "items"[, "total"]}` dict `b2_list` returns. -/
structure B2ListRes where
  error : Option String
  items : List Dict
  total : Option ℤ
deriving DecidableEq

/-- The item dict `b2_list` builds per remote file. -/
def b2_item (f : RemoteFile) : Dict :=
  [("name", match f.name with | some s => Val.str s | none => Val.null),
   ("size", Val.num ((f.size.getD 0 : ℤ) : ℚ)),
   ("size_h", Val.str (human_size ((f.size.getD 0 : ℤ) : ℚ))),
   ("time", Val.str (f.modTime.getD ""))]

/-- `b2_list` from `gui/app.py`: on success the files are sorted newest
`ModTime` first (string order, stable) and capped at `max_items`, while
`total` sums the sizes of all files. -/
def b2_list (json_loads : JsonDecode) (res : CmdRes) (max_items : ℕ) : B2ListRes :=
  if res.code ≠ 0 then { error := some (str_or res.err res.out), items := [], total := none }
  else
    match json_loads res.out with
    | Except.error exc => { error := some exc, items := [], total := none }
    | Except.ok files =>
      let files_sorted :=
        (stable_sort (fun a b => str_lt (b.modTime.getD "") (a.modTime.getD "")) files).take max_items
      { error := none
      , items := files_sorted.map b2_item
      , total := some ((files.map (fun f => f.size.getD 0)).sum) }

/-- One remote tier of the `/api/backups` response:
`{**b2x, "items": costed, "total_storage": ..., "total_egress": ...}`. -/
structure TierView where
  error : Option String
  items : List Dict
  total : Option ℤ
  total_storage : ℚ
  total_egress : ℚ
deriving DecidableEq

/-- One local tier of the `/api/backups` response. -/
structure LocalTierView where
  count : ℕ
  size : ℕ
  items : List Dict
  total_storage : ℚ
  total_egress : ℚ
deriving DecidableEq

/-- The dump tier of the `/api/backups` response. -/
structure DumpTierView where
  items : List Dict
  total_storage : ℚ
  total_egress : ℚ
deriving DecidableEq

/-- The whole `/api/backups` JSON body. -/
structure BackupsView where
  b2_configs : TierView
  b2_vms : TierView
  local_configs : LocalTierView
  local_vms : LocalTierView
  local_vms_dump : DumpTierView
deriving DecidableEq

/-- `api_backups` from `gui/app.py`, over the provider outcomes of the two
remote listings, the two local directories and the dump roots.  `none`
models an exception escaping the handler (none is reachable: every item
list the handler builds carries a numeric `size`). -/
def api_backups (json_c : JsonDecode) (res_c : CmdRes) (json_v : JsonDecode) (res_v : CmdRes)
    (local_c local_v : Option (List LocalFile)) (dump_roots : List (Option (List FsEntry))) :
    Option BackupsView :=
  let b2c := b2_list json_c res_c 200
  let b2v := b2_list json_v res_v 200
  let lc := list_local local_c
  let lv := list_local local_v
  let lvd := list_local_recursive dump_roots 400
  match cost_estimates b2c.items, cost_estimates b2v.items, cost_estimates lc.items,
      cost_estimates lv.items, cost_estimates lvd with
  | some (b2cc, b2cs, b2ce), some (b2vc, b2vs, b2ve), some (lcc, lcs, lce),
      some (lvc, lvs, lve), some (lvdc, lvds, lvde) =>
    some
      { b2_configs :=
          { error := b2c.error, items := b2cc, total := b2c.total
          , total_storage := b2cs, total_egress := b2ce }
      , b2_vms :=
          { error := b2v.error, items := b2vc, total := b2v.total
          , total_storage := b2vs, total_egress := b2ve }
      , local_configs :=
          { count := lc.count, size := lc.size, items := lcc
          , total_storage := lcs, total_egress := lce }
      , local_vms :=
          { count := lv.count, size := lv.size, items := lvc
          , total_storage := lvs, total_egress := lve }
      , local_vms_dump := { items := lvdc, total_storage := lvds, total_egress := lvde } }
  | _, _, _, _, _ => none

theorem qadd_eq (a b : ℚ) : qadd a b = a + b := by
  have ha : ((a.den : ℚ)) ≠ 0 := Nat.cast_ne_zero.mpr a.den_nz
  have hb : ((b.den : ℚ)) ≠ 0 := Nat.cast_ne_zero.mpr b.den_nz
  rw [qadd, Rat.divInt_eq_div]
  conv_rhs => rw [← Rat.num_div_den a, ← Rat.num_div_den b, div_add_div _ _ ha hb]
  push_cast
  ring_nf

theorem qmul_eq (a b : ℚ) : qmul a b = a * b := by
  have ha : ((a.den : ℚ)) ≠ 0 := Nat.cast_ne_zero.mpr a.den_nz
  have hb : ((b.den : ℚ)) ≠ 0 := Nat.cast_ne_zero.mpr b.den_nz
  rw [qmul, Rat.divInt_eq_div]
  conv_rhs => rw [← Rat.num_div_den a, ← Rat.num_div_den b, div_mul_div_comm]
  push_cast
  ring_nf

theorem qdiv_eq (a b : ℚ) : qdiv a b = a / b := by
  rcases eq_or_ne b 0 with rfl | hb
  · simp [qdiv, Rat.divInt_eq_div]
  · have ha : ((a.den : ℚ)) ≠ 0 := Nat.cast_ne_zero.mpr a.den_nz
    have hbn : ((b.num : ℚ)) ≠ 0 := by
      exact_mod_cast Rat.num_ne_zero.mpr hb
    have han : ((a.num : ℚ)) = a * a.den := (div_eq_iff ha).mp (Rat.num_div_den a)
    have hbnn : ((b.num : ℚ)) = b * b.den := (div_eq_iff (Nat.cast_ne_zero.mpr b.den_nz)).mp (Rat.num_div_den b)
    rw [qdiv, Rat.divInt_eq_div]
    push_cast
    rw [div_eq_div_iff (mul_ne_zero ha hbn) hb, han, hbnn]
    ring

theorem mem_stable_insert (gb : α → α → Bool) (x : α) (l : List α) (c : α) :
    c ∈ stable_insert gb x l ↔ c = x ∨ c ∈ l := by
  induction l with
  | nil => simp [stable_insert]
  | cons y ys ih =>
    by_cases h : gb x y = true
    · rw [stable_insert, if_pos h]
      simp
    · rw [stable_insert, if_neg h]
      simp [ih]
      tauto

theorem pairwise_stable_insert (gb : α → α → Bool)
    (asym : ∀ a b, gb a b = true → gb b a = false)
    (tr : ∀ a b c, gb a b = true → gb c b = false → gb c a = false)
    (x : α) (l : List α) (h : l.Pairwise (fun a b => gb b a = false)) :
    (stable_insert gb x l).Pairwise (fun a b => gb b a = false) := by
  induction l with
  | nil => simp [stable_insert]
  | cons y ys ih =>
    rcases List.pairwise_cons.mp h with ⟨hy, hys⟩
    by_cases hxy : gb x y = true
    · rw [stable_insert, if_pos hxy]
      refine List.pairwise_cons.mpr ⟨?_, h⟩
      intro z hz
      rcases List.mem_cons.mp hz with rfl | hz2
      · exact asym x z hxy
      · exact tr x y z hxy (hy z hz2)
    · rw [stable_insert, if_neg hxy]
      refine List.pairwise_cons.mpr ⟨?_, ih hys⟩
      intro z hz
      rcases (mem_stable_insert gb x ys z).mp hz with rfl | hz2
      · exact Bool.eq_false_iff.mpr hxy
      · exact hy z hz2

theorem pairwise_stable_sort (gb : α → α → Bool)
    (asym : ∀ a b, gb a b = true → gb b a = false)
    (tr : ∀ a b c, gb a b = true → gb c b = false → gb c a = false)
    (l : List α) :
    (stable_sort gb l).Pairwise (fun a b => gb b a = false) := by
  suffices h : ∀ (l : List α) (acc : List α), acc.Pairwise (fun a b => gb b a = false) →
      (l.foldl (fun acc x => stable_insert gb x acc) acc).Pairwise (fun a b => gb b a = false) by
    exact h l [] (by simp)
  intro l
  induction l with
  | nil => intro acc hacc; simpa using hacc
  | cons x xs ih =>
    intro acc hacc
    exact ih _ (pairwise_stable_insert gb asym tr x acc hacc)

theorem dget_dset_self (d : Dict) (k : String) (v : Val) : dget (dset d k v) k = some v := by
  induction d with
  | nil => simp [dset, dget]
  | cons p rest ih =>
    by_cases h : p.1 = k
    · simp [dset, h, dget]
    · simp [dset, h, dget, ih]

theorem dget_dset_ne (d : Dict) (k k2 : String) (v : Val) (h : k ≠ k2) :
    dget (dset d k v) k2 = dget d k2 := by
  induction d with
  | nil => simp [dset, dget, h]
  | cons p rest ih =>
    by_cases hp : p.1 = k
    · simp [dset, hp, dget, h]
    · simp [dset, hp, dget, ih]

/-- C1: for the two-line newest-first input `["2024-01-01T00:00:05 Done.",
"2024-01-01T00:00:00 Starting unit"]`, `recent_runs` produces exactly one
run, with status `"ok"` and duration `"5.0s"` (five seconds). -/
theorem c1_two_line_batch_single_ok_run :
    recent_runs ["2024-01-01T00:00:05 Done.", "2024-01-01T00:00:00 Starting unit"] 6 =
      some [{ time := "2024-01-01T00:00:00", status := "ok", duration := "5.0s"
            , note := "Done." }] := by
  decide

/-- C9: a path whose directory does not exist (`p.exists()` false, the
`none` directory) yields exactly `{count: 0, size: 0, items: []}` from
`list_local`, and no error. -/
theorem c9_missing_dir_yields_empty :
    list_local none = { count := 0, size := 0, items := [] } := by
  decide

/-- C8: for every provider outcome with non-zero exit code, `b2_stats`
returns count 0 / size 0 and `b2_list` returns an empty item list with no
total, both annotated with the error message `err or out`; being total
functions of the outcome, they propagate nothing. -/
theorem c8_nonzero_code_empty_annotated (json_loads : JsonDecode) (res : CmdRes)
    (max_items : ℕ) (h : res.code ≠ 0) :
    b2_stats json_loads res = { count := 0, size := 0, error := some (str_or res.err res.out) } ∧
      b2_list json_loads res max_items =
        { error := some (str_or res.err res.out), items := [], total := none } := by
  constructor
  · simp [b2_stats, h]
  · simp [b2_list, h]

theorem c8_nonzero_code_empty_annotated_witness :
    b2_stats (fun _ => Except.error "boom") { code := 1, out := "", err := "fail" } =
        { count := 0, size := 0
        , error := some (str_or "fail" "") } ∧
      b2_list (fun _ => Except.error "boom") { code := 1, out := "", err := "fail" } 200 =
        { error := some (str_or "fail" ""), items := [], total := none } :=
  c8_nonzero_code_empty_annotated (fun _ => Except.error "boom")
    { code := 1, out := "", err := "fail" } 200 (by decide)

theorem string_append_assoc : ∀ (a b c : String), a ++ b ++ c = a ++ (b ++ c)
  | ⟨a⟩, ⟨b⟩, ⟨c⟩ => congrArg String.mk (List.append_assoc a b c)

/-- C6: `human_size` is base-1024 with units B/KB/MB/GB/TB/PB, dividing by
1024 until the value is below 1024 (a value of at least 1024⁵ is rendered
in PB with no further comparison) and rendering one decimal place; in
particular 0 ↦ "0.0 B", 1024 ↦ "1.0 KB" and 1024⁴ ↦ "1.0 TB". -/
theorem c6_human_size_units :
    human_size 0 = "0.0 B" ∧ human_size 1024 = "1.0 KB" ∧
    human_size (1024 ^ 4) = "1.0 TB" ∧
    (∀ q : ℚ, 0 ≤ q → q < 1024 → human_size q = fmtFixed1 q ++ " B") ∧
    (∀ q : ℚ, 1024 ≤ q → q < 1024 ^ 2 → human_size q = fmtFixed1 (q / 1024) ++ " KB") ∧
    (∀ q : ℚ, 1024 ^ 2 ≤ q → q < 1024 ^ 3 →
      human_size q = fmtFixed1 (q / 1024 / 1024) ++ " MB") ∧
    (∀ q : ℚ, 1024 ^ 3 ≤ q → q < 1024 ^ 4 →
      human_size q = fmtFixed1 (q / 1024 / 1024 / 1024) ++ " GB") ∧
    (∀ q : ℚ, 1024 ^ 4 ≤ q → q < 1024 ^ 5 →
      human_size q = fmtFixed1 (q / 1024 / 1024 / 1024 / 1024) ++ " TB") ∧
    (∀ q : ℚ, 1024 ^ 5 ≤ q →
      human_size q = fmtFixed1 (q / 1024 / 1024 / 1024 / 1024 / 1024) ++ " PB") := by
  have h1024 : (0 : ℚ) < 1024 := by norm_num
  refine ⟨by decide, by decide, by decide, ?_, ?_, ?_, ?_, ?_, ?_⟩
  · intro q h0 h1
    rw [human_size, human_size_go, if_pos h1, string_append_assoc]
    rfl
  · intro q h1 h2
    have hq1 : ¬ (q < 1024) := not_lt.mpr h1
    have hq2 : qdiv q 1024 < 1024 := by
      rw [qdiv_eq, div_lt_iff₀ h1024]; nlinarith
    rw [human_size, human_size_go, if_neg hq1, human_size_go, if_pos hq2, qdiv_eq,
      string_append_assoc]
    rfl
  · intro q h1 h2
    have hq1 : ¬ (q < 1024) := by rw [not_lt]; nlinarith
    have hq2 : ¬ (qdiv q 1024 < 1024) := by
      rw [qdiv_eq, not_lt, le_div_iff₀ h1024]; nlinarith
    have hq3 : qdiv (qdiv q 1024) 1024 < 1024 := by
      rw [qdiv_eq, qdiv_eq, div_lt_iff₀ h1024, div_lt_iff₀ h1024]; nlinarith
    rw [human_size, human_size_go, if_neg hq1, human_size_go, if_neg hq2, human_size_go,
      if_pos hq3, qdiv_eq, qdiv_eq, string_append_assoc]
    rfl
  · intro q h1 h2
    have hq1 : ¬ (q < 1024) := by rw [not_lt]; nlinarith
    have hq2 : ¬ (qdiv q 1024 < 1024) := by
      rw [qdiv_eq, not_lt, le_div_iff₀ h1024]; nlinarith
    have hq3 : ¬ (qdiv (qdiv q 1024) 1024 < 1024) := by
      rw [qdiv_eq, qdiv_eq, not_lt, le_div_iff₀ h1024, le_div_iff₀ h1024]; nlinarith
    have hq4 : qdiv (qdiv (qdiv q 1024) 1024) 1024 < 1024 := by
      rw [qdiv_eq, qdiv_eq, qdiv_eq, div_lt_iff₀ h1024, div_lt_iff₀ h1024, div_lt_iff₀ h1024]
      nlinarith
    rw [human_size, human_size_go, if_neg hq1, human_size_go, if_neg hq2, human_size_go,
      if_neg hq3, human_size_go, if_pos hq4, qdiv_eq, qdiv_eq, qdiv_eq, string_append_assoc]
    rfl
  · intro q h1 h2
    have hq1 : ¬ (q < 1024) := by rw [not_lt]; nlinarith
    have hq2 : ¬ (qdiv q 1024 < 1024) := by
      rw [qdiv_eq, not_lt, le_div_iff₀ h1024]; nlinarith
    have hq3 : ¬ (qdiv (qdiv q 1024) 1024 < 1024) := by
      rw [qdiv_eq, qdiv_eq, not_lt, le_div_iff₀ h1024, le_div_iff₀ h1024]; nlinarith
    have hq4 : ¬ (qdiv (qdiv (qdiv q 1024) 1024) 1024 < 1024) := by
      rw [qdiv_eq, qdiv_eq, qdiv_eq, not_lt, le_div_iff₀ h1024, le_div_iff₀ h1024,
        le_div_iff₀ h1024]
      nlinarith
    have hq5 : qdiv (qdiv (qdiv (qdiv q 1024) 1024) 1024) 1024 < 1024 := by
      rw [qdiv_eq, qdiv_eq, qdiv_eq, qdiv_eq, div_lt_iff₀ h1024, div_lt_iff₀ h1024,
        div_lt_iff₀ h1024, div_lt_iff₀ h1024]
      nlinarith
    rw [human_size, human_size_go, if_neg hq1, human_size_go, if_neg hq2, human_size_go,
      if_neg hq3, human_size_go, if_neg hq4, human_size_go, if_pos hq5, qdiv_eq, qdiv_eq,
      qdiv_eq, qdiv_eq, string_append_assoc]
    rfl
  · intro q h1
    have hq1 : ¬ (q < 1024) := by rw [not_lt]; nlinarith
    have hq2 : ¬ (qdiv q 1024 < 1024) := by
      rw [qdiv_eq, not_lt, le_div_iff₀ h1024]; nlinarith
    have hq3 : ¬ (qdiv (qdiv q 1024) 1024 < 1024) := by
      rw [qdiv_eq, qdiv_eq, not_lt, le_div_iff₀ h1024, le_div_iff₀ h1024]; nlinarith
    have hq4 : ¬ (qdiv (qdiv (qdiv q 1024) 1024) 1024 < 1024) := by
      rw [qdiv_eq, qdiv_eq, qdiv_eq, not_lt, le_div_iff₀ h1024, le_div_iff₀ h1024,
        le_div_iff₀ h1024]
      nlinarith
    have hq5 : ¬ (qdiv (qdiv (qdiv (qdiv q 1024) 1024) 1024) 1024 < 1024) := by
      rw [qdiv_eq, qdiv_eq, qdiv_eq, qdiv_eq, not_lt, le_div_iff₀ h1024, le_div_iff₀ h1024,
        le_div_iff₀ h1024, le_div_iff₀ h1024]
      nlinarith
    rw [human_size, human_size_go, if_neg hq1, human_size_go, if_neg hq2, human_size_go,
      if_neg hq3, human_size_go, if_neg hq4, human_size_go, if_neg hq5, human_size_go,
      qdiv_eq, qdiv_eq, qdiv_eq, qdiv_eq, qdiv_eq]

theorem c6_human_size_units_witness :
    human_size ((1024 : ℚ) ^ 5) =
      fmtFixed1 ((1024 : ℚ) ^ 5 / 1024 / 1024 / 1024 / 1024 / 1024) ++ " PB" :=
  c6_human_size_units.2.2.2.2.2.2.2.2 ((1024 : ℚ) ^ 5) (le_refl _)

theorem est_val_cost_item (it : Dict) (q : ℚ) :
    est_val "est_storage" (cost_item it q).1 = (cost_item it q).2.1 ∧
    est_val "est_egress" (cost_item it q).1 = (cost_item it q).2.2 := by
  have hne : ("est_egress" : String) ≠ "est_storage" := by decide
  constructor
  · rw [cost_item, est_val]
    rw [dget_dset_ne _ _ _ _ hne, dget_dset_self]
  · rw [cost_item, est_val]
    rw [dget_dset_self]

theorem cost_estimates_sound :
    ∀ (items est : List Dict) (ts te : ℚ), cost_estimates items = some (est, ts, te) →
      List.Forall₂ (fun it out => ∃ q, dget_num it "size" 0 = some q ∧
        out = (cost_item it q).1) items est ∧
      ts = (est.map (est_val "est_storage")).sum ∧
      te = (est.map (est_val "est_egress")).sum := by
  intro items
  induction items with
  | nil =>
    intro est ts te h
    simp only [cost_estimates, Option.some.injEq, Prod.mk.injEq] at h
    obtain ⟨h1, h2, h3⟩ := h
    subst h1; subst h2; subst h3
    simp
  | cons it rest ih =>
    intro est ts te h
    rw [cost_estimates] at h
    cases hq : dget_num it "size" 0 with
    | none => rw [hq] at h; cases h
    | some q =>
      rw [hq] at h
      cases hrec : cost_estimates rest with
      | none => rw [hrec] at h; cases h
      | some tr =>
        obtain ⟨est2, ts2, te2⟩ := tr
        rw [hrec] at h
        simp only [Option.some.injEq, Prod.mk.injEq] at h
        obtain ⟨h1, h2, h3⟩ := h
        subst h1; subst h2; subst h3
        obtain ⟨f2, hts2, hte2⟩ := ih est2 ts2 te2 hrec
        refine ⟨List.Forall₂.cons ⟨q, hq, rfl⟩ f2, ?_, ?_⟩
        · rw [List.map_cons, List.sum_cons, (est_val_cost_item it q).1, ← hts2, qadd_eq]
        · rw [List.map_cons, List.sum_cons, (est_val_cost_item it q).2, ← hte2, qadd_eq]

/-- C5: `cost_estimates` annotates every item with `est_storage = sizeBytes
/ 2³⁰ * 0.005` and `est_egress = sizeBytes / 2³⁰ * 0.01`, the returned
totals are the sums of the per-item estimates, and an artifact of exactly
1073741824 bytes yields estimated costs 0.005 and 0.01. -/
theorem c5_cost_estimator :
    storage_rate = 5 / 1000 ∧ egress_rate = 1 / 100 ∧
    (∀ items est ts te, cost_estimates items = some (est, ts, te) →
      List.Forall₂ (fun it out => ∃ q, dget_num it "size" 0 = some q ∧
        out = dset (dset it "est_storage" (Val.num (q / 1073741824 * storage_rate)))
          "est_egress" (Val.num (q / 1073741824 * egress_rate))) items est ∧
      ts = (est.map (est_val "est_storage")).sum ∧
      te = (est.map (est_val "est_egress")).sum) ∧
    cost_estimates [[("size", Val.num 1073741824)]] =
      some ([[("size", Val.num 1073741824), ("est_storage", Val.num storage_rate),
              ("est_egress", Val.num egress_rate)]], storage_rate, egress_rate) := by
  refine ⟨?_, ?_, ?_, by decide⟩
  · rw [storage_rate, Rat.divInt_eq_div]; norm_num
  · rw [egress_rate, Rat.divInt_eq_div]; norm_num
  · intro items est ts te h
    obtain ⟨f2, hts, hte⟩ := cost_estimates_sound items est ts te h
    refine ⟨?_, hts, hte⟩
    refine f2.imp ?_
    rintro it out ⟨q, hq, hout⟩
    exact ⟨q, hq, by rw [hout]; simp [cost_item, qmul_eq, qdiv_eq]⟩

theorem c5_cost_estimator_witness :
    List.Forall₂ (fun it out => ∃ q, dget_num it "size" 0 = some q ∧
        out = dset (dset it "est_storage" (Val.num (q / 1073741824 * storage_rate)))
          "est_egress" (Val.num (q / 1073741824 * egress_rate)))
      [[("size", Val.num 1073741824)]]
      [[("size", Val.num 1073741824), ("est_storage", Val.num storage_rate),
        ("est_egress", Val.num egress_rate)]] ∧
    storage_rate = ([[("size", Val.num 1073741824), ("est_storage", Val.num storage_rate),
      ("est_egress", Val.num egress_rate)]].map (est_val "est_storage")).sum ∧
    egress_rate = ([[("size", Val.num 1073741824), ("est_storage", Val.num storage_rate),
      ("est_egress", Val.num egress_rate)]].map (est_val "est_egress")).sum :=
  c5_cost_estimator.2.2.1 [[("size", Val.num 1073741824)]]
    [[("size", Val.num 1073741824), ("est_storage", Val.num storage_rate),
      ("est_egress", Val.num egress_rate)]] storage_rate egress_rate (by decide)

theorem get?_preserved {l1 l2 : List Dict} (h : l1 <+: l2) (r : ℕ) (hr : r < l1.length) :
    l2.get? r = l1.get? r := by
  obtain ⟨t, rfl⟩ := h
  exact List.get?_append hr

/-- C10: `cost_estimates` never mutates an input dict: with the heap made
explicit, the input heap is a prefix of the output heap (existing
addresses keep their exact contents, so the caller's item sequence reads
back unchanged), and every dict of the returned annotated list lives at a
fresh address. -/
theorem c10_cost_estimates_frame :
    ∀ (store : Store) (refs : List ℕ) (out : Store × List ℕ × ℚ × ℚ),
      (∀ r ∈ refs, r < store.length) →
      cost_estimates_heap store refs = some out →
      store <+: out.1 ∧ (∀ r ∈ refs, out.1.get? r = store.get? r) ∧
        (∀ r2 ∈ out.2.1, store.length ≤ r2) := by
  intro store refs
  induction refs generalizing store with
  | nil =>
    intro out hv h
    simp only [cost_estimates_heap, Option.some.injEq] at h
    subst h
    exact ⟨List.prefix_refl _, by simp, by simp⟩
  | cons r rest ih =>
    intro out hv h
    rw [cost_estimates_heap] at h
    split at h
    next hg => exact Option.noConfusion h
    next it hg =>
      split at h
      next hq => exact Option.noConfusion h
      next q hq =>
        dsimp only [] at h
        split at h
        next hrec => exact Option.noConfusion h
        next store2 refs2 ts2 te2 hrec =>
          simp only [Option.some.injEq] at h
          subst h
          have hv2 : ∀ r2 ∈ rest, r2 < (store ++ [(cost_item it q).1]).length := by
            intro r2 hr2
            have := hv r2 (List.mem_cons_of_mem _ hr2)
            simp only [List.length_append, List.length_cons, List.length_nil]
            omega
          obtain ⟨hpre, hsame, hfresh⟩ := ih (store ++ [(cost_item it q).1])
            (store2, refs2, ts2, te2) hv2 hrec
          have hpre0 : store <+: store ++ [(cost_item it q).1] := List.prefix_append _ _
          refine ⟨hpre0.trans hpre, ?_, ?_⟩
          · intro r2 hr2
            rcases List.mem_cons.mp hr2 with rfl | hr3
            · exact get?_preserved (hpre0.trans hpre) r2 (hv r2 (List.mem_cons_self _ _))
            · have e1 := hsame r2 hr3
              have hlt : r2 < store.length := hv r2 (List.mem_cons_of_mem _ hr3)
              rw [e1, List.get?_append hlt]
          · intro r2 hr2
            rcases List.mem_cons.mp hr2 with rfl | hr3
            · exact le_refl _
            · have := hfresh r2 hr3
              simp only [List.length_append, List.length_cons, List.length_nil] at this
              omega

theorem c10_cost_estimates_frame_witness :
    ([[("size", Val.num 1073741824)], [("a", Val.null)]] : Store) <+:
        [[("size", Val.num 1073741824)], [("a", Val.null)],
         [("size", Val.num 1073741824), ("est_storage", Val.num (Rat.divInt 5 1000)),
          ("est_egress", Val.num (Rat.divInt 1 100))]] ∧
      (∀ r ∈ [0], ([[("size", Val.num 1073741824)], [("a", Val.null)],
         [("size", Val.num 1073741824), ("est_storage", Val.num (Rat.divInt 5 1000)),
          ("est_egress", Val.num (Rat.divInt 1 100))]] : Store).get? r =
        ([[("size", Val.num 1073741824)], [("a", Val.null)]] : Store).get? r) ∧
      (∀ r2 ∈ [2], ([[("size", Val.num 1073741824)], [("a", Val.null)]] : Store).length ≤ r2) :=
  c10_cost_estimates_frame [[("size", Val.num 1073741824)], [("a", Val.null)]] [0]
    ([[("size", Val.num 1073741824)], [("a", Val.null)],
      [("size", Val.num 1073741824), ("est_storage", Val.num (Rat.divInt 5 1000)),
       ("est_egress", Val.num (Rat.divInt 1 100))]],
     [2], Rat.divInt 5 1000, Rat.divInt 1 100) (by decide) (by decide)

theorem cost_estimates_isSome (items : List Dict) (h : ∀ d ∈ items, size_ok d = true) :
    (cost_estimates items).isSome := by
  induction items with
  | nil => simp [cost_estimates]
  | cons it rest ih =>
    have h1 : size_ok it = true := h it (List.mem_cons_self _ _)
    rw [size_ok, Option.isSome_iff_exists] at h1
    obtain ⟨q, hq⟩ := h1
    have h2 := ih (fun d hd => h d (List.mem_cons_of_mem _ hd))
    rw [Option.isSome_iff_exists] at h2
    obtain ⟨tr, htr⟩ := h2
    obtain ⟨est, ts, te⟩ := tr
    rw [cost_estimates, hq, htr]
    simp

theorem size_ok_b2_item (f : RemoteFile) : size_ok (b2_item f) = true := by
  rw [b2_item, size_ok, dget_num, dget]
  rw [if_neg (by decide : ¬ ("name" : String) = "size")]
  rw [dget, if_pos rfl]
  rfl

theorem size_ok_local_item (f : LocalFile) : size_ok (local_item f) = true := by
  rw [local_item, size_ok, dget_num, dget]
  rw [if_neg (by decide : ¬ ("name" : String) = "size")]
  rw [dget, if_pos rfl]
  rfl

theorem size_ok_fs_item (f : FsEntry) : size_ok (fs_item f) = true := by
  rw [fs_item, size_ok, dget_num, dget]
  rw [if_neg (by decide : ¬ ("name" : String) = "size")]
  rw [dget, if_neg (by decide : ¬ ("path" : String) = "size")]
  rw [dget, if_pos rfl]
  rfl

theorem b2_list_items_size_ok (j : JsonDecode) (r : CmdRes) (mi : ℕ) :
    ∀ d ∈ (b2_list j r mi).items, size_ok d = true := by
  intro d hd
  rw [b2_list] at hd
  split at hd
  · simp at hd
  · split at hd
    · simp at hd
    · simp only [List.mem_map] at hd
      obtain ⟨f, _, rfl⟩ := hd
      exact size_ok_b2_item f

theorem list_local_items_size_ok (dir : Option (List LocalFile)) :
    ∀ d ∈ (list_local dir).items, size_ok d = true := by
  intro d hd
  cases dir with
  | none => simp [list_local] at hd
  | some files =>
    simp only [list_local, List.mem_map] at hd
    obtain ⟨f, _, rfl⟩ := hd
    exact size_ok_local_item f

theorem llr_files_items_mem (mi : ℕ) :
    ∀ (fs : List FsEntry) (acc : List Dict) (d : Dict),
      d ∈ (llr_files mi fs acc).items → d ∈ acc ∨ ∃ f, d = fs_item f := by
  intro fs
  induction fs with
  | nil =>
    intro acc d hd
    exact Or.inl hd
  | cons f fs ih =>
    intro acc d hd
    rw [llr_files] at hd
    by_cases hf : f.is_file
    · rw [if_pos hf] at hd
      dsimp only [] at hd
      by_cases hcap : mi ≤ (acc ++ [fs_item f]).length
      · rw [if_pos hcap] at hd
        rcases List.mem_append.mp hd with h1 | h2
        · exact Or.inl h1
        · exact Or.inr ⟨f, by simpa using h2⟩
      · rw [if_neg hcap] at hd
        rcases ih (acc ++ [fs_item f]) d hd with h1 | h2
        · rcases List.mem_append.mp h1 with h3 | h4
          · exact Or.inl h3
          · exact Or.inr ⟨f, by simpa using h4⟩
        · exact Or.inr h2
    · rw [if_neg hf] at hd
      exact ih acc d hd

theorem llr_roots_items_mem (mi : ℕ) :
    ∀ (roots : List (Option (List FsEntry))) (acc : List Dict) (d : Dict),
      d ∈ llr_roots mi roots acc → d ∈ acc ∨ ∃ f, d = fs_item f := by
  intro roots
  induction roots with
  | nil =>
    intro acc d hd
    exact Or.inl hd
  | cons root roots ih =>
    intro acc d hd
    cases root with
    | none => exact ih acc d hd
    | some fs =>
      rw [llr_roots] at hd
      cases hloop : llr_files mi
          (stable_sort (fun a b => decide (fs_sort_key b < fs_sort_key a)) fs) acc with
      | ret items2 =>
        rw [hloop] at hd
        exact llr_files_items_mem mi _ acc d (by rw [hloop]; exact hd)
      | cont items2 =>
        rw [hloop] at hd
        rcases ih items2 d hd with h1 | h2
        · exact llr_files_items_mem mi _ acc d (by rw [hloop]; exact h1)
        · exact Or.inr h2

theorem list_local_recursive_size_ok (roots : List (Option (List FsEntry))) (mi : ℕ) :
    ∀ d ∈ list_local_recursive roots mi, size_ok d = true := by
  intro d hd
  rcases llr_roots_items_mem mi roots [] d hd with h1 | ⟨f, rfl⟩
  · simp at h1
  · exact size_ok_fs_item f

theorem api_backups_spec (jc : JsonDecode) (rc : CmdRes) (jv : JsonDecode) (rv : CmdRes)
    (lc lv : Option (List LocalFile)) (dr : List (Option (List FsEntry)))
    (e1 : List Dict) (s1 g1 : ℚ) (e2 : List Dict) (s2 g2 : ℚ) (e3 : List Dict) (s3 g3 : ℚ)
    (e4 : List Dict) (s4 g4 : ℚ) (e5 : List Dict) (s5 g5 : ℚ)
    (h1 : cost_estimates (b2_list jc rc 200).items = some (e1, s1, g1))
    (h2 : cost_estimates (b2_list jv rv 200).items = some (e2, s2, g2))
    (h3 : cost_estimates (list_local lc).items = some (e3, s3, g3))
    (h4 : cost_estimates (list_local lv).items = some (e4, s4, g4))
    (h5 : cost_estimates (list_local_recursive dr 400) = some (e5, s5, g5)) :
    api_backups jc rc jv rv lc lv dr = some
      { b2_configs :=
          { error := (b2_list jc rc 200).error, items := e1, total := (b2_list jc rc 200).total
          , total_storage := s1, total_egress := g1 }
      , b2_vms :=
          { error := (b2_list jv rv 200).error, items := e2, total := (b2_list jv rv 200).total
          , total_storage := s2, total_egress := g2 }
      , local_configs :=
          { count := (list_local lc).count, size := (list_local lc).size, items := e3
          , total_storage := s3, total_egress := g3 }
      , local_vms :=
          { count := (list_local lv).count, size := (list_local lv).size, items := e4
          , total_storage := s4, total_egress := g4 }
      , local_vms_dump := { items := e5, total_storage := s5, total_egress := g5 } } := by
  rw [api_backups]
  rw [h1, h2, h3, h4, h5]

theorem cost_estimates_some_of (items : List Dict) (h : ∀ d ∈ items, size_ok d = true) :
    ∃ e s g, cost_estimates items = some (e, s, g) := by
  have h2 := cost_estimates_isSome items h
  rw [Option.isSome_iff_exists] at h2
  obtain ⟨⟨e, s, g⟩, he⟩ := h2
  exact ⟨e, s, g, he⟩

/-- C7: in the `/api/backups` reconciliation view each tier's summary is a
function of that tier's own source data only: replacing the configs
tier's provider outcome (including by a failing one) leaves the vms tier's
view unchanged, and symmetrically; and when the configs listing fails the
view still carries a fully populated vms tier (its own error/total and its
cost-annotated items with totals) with the failing tier marked by its
error message. -/
theorem c7_tier_isolation (jc : JsonDecode) (rc : CmdRes) (jc2 : JsonDecode) (rc2 : CmdRes)
    (jv : JsonDecode) (rv : CmdRes) (jv2 : JsonDecode) (rv2 : CmdRes)
    (lc lv : Option (List LocalFile)) (dr : List (Option (List FsEntry))) :
    ((api_backups jc rc jv rv lc lv dr).map BackupsView.b2_vms =
      (api_backups jc2 rc2 jv rv lc lv dr).map BackupsView.b2_vms) ∧
    ((api_backups jc rc jv rv lc lv dr).map BackupsView.b2_configs =
      (api_backups jc rc jv2 rv2 lc lv dr).map BackupsView.b2_configs) ∧
    (rc.code ≠ 0 → ∃ v, api_backups jc rc jv rv lc lv dr = some v ∧
      v.b2_configs.error = some (str_or rc.err rc.out) ∧
      v.b2_configs.items = [] ∧ v.b2_configs.total = none ∧
      v.b2_vms.error = (b2_list jv rv 200).error ∧
      v.b2_vms.total = (b2_list jv rv 200).total ∧
      cost_estimates (b2_list jv rv 200).items =
        some (v.b2_vms.items, v.b2_vms.total_storage, v.b2_vms.total_egress)) := by
  obtain ⟨e1, s1, g1, h1⟩ := cost_estimates_some_of _ (b2_list_items_size_ok jc rc 200)
  obtain ⟨e1b, s1b, g1b, h1b⟩ := cost_estimates_some_of _ (b2_list_items_size_ok jc2 rc2 200)
  obtain ⟨e2, s2, g2, h2⟩ := cost_estimates_some_of _ (b2_list_items_size_ok jv rv 200)
  obtain ⟨e2b, s2b, g2b, h2b⟩ := cost_estimates_some_of _ (b2_list_items_size_ok jv2 rv2 200)
  obtain ⟨e3, s3, g3, h3⟩ := cost_estimates_some_of _ (list_local_items_size_ok lc)
  obtain ⟨e4, s4, g4, h4⟩ := cost_estimates_some_of _ (list_local_items_size_ok lv)
  obtain ⟨e5, s5, g5, h5⟩ := cost_estimates_some_of _ (list_local_recursive_size_ok dr 400)
  refine ⟨?_, ?_, ?_⟩
  · rw [api_backups_spec jc rc jv rv lc lv dr e1 s1 g1 e2 s2 g2 e3 s3 g3 e4 s4 g4 e5 s5 g5
      h1 h2 h3 h4 h5,
      api_backups_spec jc2 rc2 jv rv lc lv dr e1b s1b g1b e2 s2 g2 e3 s3 g3 e4 s4 g4 e5 s5 g5
      h1b h2 h3 h4 h5]
    rfl
  · rw [api_backups_spec jc rc jv rv lc lv dr e1 s1 g1 e2 s2 g2 e3 s3 g3 e4 s4 g4 e5 s5 g5
      h1 h2 h3 h4 h5,
      api_backups_spec jc rc jv2 rv2 lc lv dr e1 s1 g1 e2b s2b g2b e3 s3 g3 e4 s4 g4 e5 s5 g5
      h1 h2b h3 h4 h5]
    rfl
  · intro hcode
    refine ⟨_, api_backups_spec jc rc jv rv lc lv dr e1 s1 g1 e2 s2 g2 e3 s3 g3 e4 s4 g4
      e5 s5 g5 h1 h2 h3 h4 h5, ?_, ?_, ?_, rfl, rfl, h2⟩
    · simp [b2_list, hcode]
    · have : (b2_list jc rc 200).items = [] := by simp [b2_list, hcode]
      rw [this] at h1
      have he1 : e1 = [] := by
        obtain ⟨f2, _, _⟩ := cost_estimates_sound [] e1 s1 g1 h1
        cases f2
        rfl
      simp [he1]
    · simp [b2_list, hcode]

theorem c7_tier_isolation_witness :
    ∃ v, api_backups (fun _ => Except.error "boom") { code := 1, out := "", err := "down" }
        (fun _ => Except.ok []) { code := 0, out := "[]", err := "" } none none [] = some v ∧
      v.b2_configs.error = some (str_or "down" "") ∧
      v.b2_configs.items = [] ∧ v.b2_configs.total = none ∧
      v.b2_vms.error = (b2_list (fun _ => Except.ok []) { code := 0, out := "[]", err := "" }
        200).error ∧
      v.b2_vms.total = (b2_list (fun _ => Except.ok []) { code := 0, out := "[]", err := "" }
        200).total ∧
      cost_estimates (b2_list (fun _ => Except.ok []) { code := 0, out := "[]", err := "" }
          200).items =
        some (v.b2_vms.items, v.b2_vms.total_storage, v.b2_vms.total_egress) :=
  (c7_tier_isolation (fun _ => Except.error "boom") { code := 1, out := "", err := "down" }
    (fun _ => Except.error "boom") { code := 1, out := "", err := "down" }
    (fun _ => Except.ok []) { code := 0, out := "[]", err := "" }
    (fun _ => Except.ok []) { code := 0, out := "[]", err := "" }
    none none []).2.2 (by decide)

theorem mk_entries_isSome :
    ∀ (lines : List String),
      (∀ l ∈ lines, classify l = none ∨ (split_space1 l).isSome = true) →
      (mk_entries lines).isSome = true := by
  intro lines
  induction lines with
  | nil => intro h; rfl
  | cons l rest ih =>
    intro h
    have hr := ih (fun l2 hl2 => h l2 (List.mem_cons_of_mem _ hl2))
    rw [Option.isSome_iff_exists] at hr
    obtain ⟨es, hes⟩ := hr
    cases hcl : classify l with
    | none => rw [mk_entries, hcl, hes]; rfl
    | some tag =>
      have hs : (split_space1 l).isSome = true := by
        rcases h l (List.mem_cons_self _ _) with hc | hs
        · rw [hcl] at hc; cases hc
        · exact hs
      rw [Option.isSome_iff_exists] at hs
      obtain ⟨⟨ts, msg⟩, hsp⟩ := hs
      simp only [mk_entries, hcl, hsp, hes, Option.map_some']
      rfl

/-- C3 counterexample: the claim entails that `recent_runs` never raises on
any batch, but the batch `[.. Done., .. Starting unit, "Starting"]` —
two well-formed lines plus one malformed line that carries the
classification marker `"Starting"` and no space — makes
`ts, msg = line.split(" ", 1)` raise an uncaught `ValueError` (`none`),
losing the whole batch including the valid run. -/
theorem c3_malformed_line_aborts :
    ¬ (∀ (lines : List String) (max_items : ℕ), (recent_runs lines max_items).isSome = true) :=
  fun h =>
    absurd (h ["2024-01-01T00:00:05 Done.", "2024-01-01T00:00:00 Starting unit", "Starting"] 6)
      (by decide)

/-- C3 amended: a line with no classification marker is dropped without
error whatever its shape, and a batch whose classified lines each contain
a space is always processed to completion; but a classified line without
any space raises and aborts the whole batch (see the counterexample). -/
theorem c3_batch_survives_when_classified_lines_have_space
    (lines : List String) (max_items : ℕ)
    (h : ∀ l ∈ lines, classify l = none ∨ (split_space1 l).isSome = true) :
    (recent_runs lines max_items).isSome = true := by
  have h2 : ∀ l ∈ lines.reverse, classify l = none ∨ (split_space1 l).isSome = true :=
    fun l hl => h l (List.mem_reverse.mp hl)
  have h3 := mk_entries_isSome lines.reverse h2
  rw [Option.isSome_iff_exists] at h3
  obtain ⟨es, hes⟩ := h3
  rw [recent_runs, hes]
  rfl

theorem c3_batch_survives_when_classified_lines_have_space_witness :
    (recent_runs ["2024-01-01T00:00:05 Done.", "no marker here",
      "2024-01-01T00:00:00 Starting unit"] 6).isSome = true :=
  c3_batch_survives_when_classified_lines_have_space
    ["2024-01-01T00:00:05 Done.", "no marker here", "2024-01-01T00:00:00 Starting unit"] 6
    (by decide)

theorem pair_runs_provenance (max_items : ℕ) :
    ∀ (es : List Entry) (start : Option Entry) (k : ℕ) (r : Run),
      r ∈ pair_runs max_items es start k →
      ∃ s e, r = mk_run s e ∧ (e.note = "done" ∨ e.note = "fail") := by
  intro es
  induction es with
  | nil => intro start k r hr; cases hr
  | cons e es ih =>
    intro start k r hr
    simp only [pair_runs] at hr
    by_cases h1 : e.note = "start"
    · rw [if_pos h1] at hr
      by_cases h2 : max_items ≤ k
      · rw [if_pos h2] at hr; cases hr
      · rw [if_neg h2] at hr; exact ih _ _ r hr
    · rw [if_neg h1] at hr
      by_cases h3 : e.note = "done" ∨ e.note = "fail"
      · rw [if_pos h3] at hr
        cases start with
        | some s =>
          rcases List.mem_cons.mp hr with rfl | hr2
          · exact ⟨s, e, rfl, h3⟩
          · by_cases h4 : max_items ≤ k + 1
            · rw [if_pos h4] at hr2; cases hr2
            · rw [if_neg h4] at hr2; exact ih _ _ r hr2
        | none =>
          by_cases h4 : max_items ≤ k
          · rw [if_pos h4] at hr; cases hr
          · rw [if_neg h4] at hr; exact ih _ _ r hr
      · rw [if_neg h3] at hr
        by_cases h4 : max_items ≤ k
        · rw [if_pos h4] at hr; cases hr
        · rw [if_neg h4] at hr; exact ih _ _ r hr

/-- C2 counterexample: the claim entails that no emitted run ever carries a
negative duration (when both timestamps parse the start must not be later,
and otherwise the duration must be `"n/a"`).  The two-line batch whose
`Done.` timestamp (00:00) precedes its paired `Starting` timestamp
(00:05) — both parseable — makes `recent_runs` emit duration `"-5.0s"`:
the source computes `t_end - t_start` without any ordering guard. -/
theorem c2_negative_duration_emitted :
    ¬ (∀ (lines : List String) (max_items : ℕ) (runs : List Run),
        recent_runs lines max_items = some runs →
        ∀ r ∈ runs, r.duration = "n/a" ∨ str_starts_with r.duration "-" = false) := by
  intro h
  have h2 := h ["2024-01-01T00:00:00 Done.", "2024-01-01T00:00:05 Starting unit"] 6
    [{ time := "2024-01-01T00:00:05", status := "ok", duration := "-5.0s", note := "Done." }]
    (by decide)
    { time := "2024-01-01T00:00:05", status := "ok", duration := "-5.0s", note := "Done." }
    (by decide)
  exact absurd h2 (by decide)

/-- C2 amended: every emitted run pairs a start entry with a terminal
entry; its recorded time is the start's timestamp field and its duration
is `durOf` of the two timestamp fields — the signed difference
`terminal − start` rendered to one decimal when both parse (negative
whenever the terminal timestamp precedes the start's, as the source has no
ordering guard), and `"n/a"` exactly when at least one fails to parse. -/
theorem c2_duration_signed_difference_or_na
    (lines : List String) (max_items : ℕ) (runs : List Run)
    (h : recent_runs lines max_items = some runs) :
    ∀ r ∈ runs, ∃ s e : Entry, r = mk_run s e ∧ r.time = s.time ∧
      r.duration = durOf s.time e.time ∧
      ((∃ a b : ℕ, fromisoformat s.time = some a ∧ fromisoformat e.time = some b ∧
          r.duration = fmtFixed1 (((b : ℤ) - (a : ℤ) : ℤ) : ℚ) ++ "s") ∨
        ((fromisoformat s.time = none ∨ fromisoformat e.time = none) ∧
          r.duration = "n/a")) := by
  intro r hr
  rw [recent_runs] at h
  cases hme : mk_entries lines.reverse with
  | none => rw [hme] at h; cases h
  | some entries =>
    rw [hme] at h
    simp only [Option.map_some', Option.some.injEq] at h
    subst h
    obtain ⟨s, e, rfl, _⟩ := pair_runs_provenance max_items entries none 0 r hr
    refine ⟨s, e, rfl, rfl, rfl, ?_⟩
    cases ha : fromisoformat s.time with
    | some a =>
      cases hb : fromisoformat e.time with
      | some b => exact Or.inl ⟨a, b, rfl, rfl, by simp only [mk_run, durOf, ha, hb]⟩
      | none => exact Or.inr ⟨Or.inr rfl, by simp only [mk_run, durOf, ha, hb]⟩
    | none =>
      cases hb : fromisoformat e.time with
      | some b => exact Or.inr ⟨Or.inl rfl, by simp only [mk_run, durOf, ha, hb]⟩
      | none => exact Or.inr ⟨Or.inl rfl, by simp only [mk_run, durOf, ha, hb]⟩

theorem c2_duration_signed_difference_or_na_witness :
    ∃ s e : Entry,
      ({ time := "2024-01-01T00:00:00", status := "ok", duration := "5.0s"
       , note := "Done." } : Run) = mk_run s e ∧
      ({ time := "2024-01-01T00:00:00", status := "ok", duration := "5.0s"
       , note := "Done." } : Run).time = s.time ∧
      ({ time := "2024-01-01T00:00:00", status := "ok", duration := "5.0s"
       , note := "Done." } : Run).duration = durOf s.time e.time ∧
      ((∃ a b : ℕ, fromisoformat s.time = some a ∧ fromisoformat e.time = some b ∧
          ({ time := "2024-01-01T00:00:00", status := "ok", duration := "5.0s"
           , note := "Done." } : Run).duration = fmtFixed1 (((b : ℤ) - (a : ℤ) : ℤ) : ℚ) ++ "s") ∨
        ((fromisoformat s.time = none ∨ fromisoformat e.time = none) ∧
          ({ time := "2024-01-01T00:00:00", status := "ok", duration := "5.0s"
           , note := "Done." } : Run).duration = "n/a")) :=
  c2_duration_signed_difference_or_na
    ["2024-01-01T00:00:05 Done.", "2024-01-01T00:00:00 Starting unit"] 6
    [{ time := "2024-01-01T00:00:00", status := "ok", duration := "5.0s", note := "Done." }]
    (by decide)
    { time := "2024-01-01T00:00:00", status := "ok", duration := "5.0s", note := "Done." }
    (by decide)

theorem llr_files_spec (mi : ℕ) :
    ∀ (fs : List FsEntry) (acc : List Dict), acc.length < max mi 1 →
      llr_files mi fs acc =
        (if max mi 1 ≤ (acc ++ (fs.filter (fun f => f.is_file)).map fs_item).length
          then LoopOut.ret ((acc ++ (fs.filter (fun f => f.is_file)).map fs_item).take (max mi 1))
          else LoopOut.cont (acc ++ (fs.filter (fun f => f.is_file)).map fs_item)) := by
  intro fs
  induction fs with
  | nil =>
    intro acc hacc
    rw [llr_files]
    simp only [List.filter_nil, List.map_nil, List.append_nil]
    rw [if_neg (by omega)]
  | cons f fs ih =>
    intro acc hacc
    rw [llr_files]
    by_cases hf : f.is_file = true
    · rw [if_pos hf]
      dsimp only []
      have hfilter : List.filter (fun f => f.is_file) (f :: fs) =
          f :: fs.filter (fun f => f.is_file) := by
        simp [List.filter_cons, hf]
      rw [hfilter, List.map_cons]
      have hcons : acc ++ fs_item f :: (fs.filter (fun f => f.is_file)).map fs_item =
          (acc ++ [fs_item f]) ++ (fs.filter (fun f => f.is_file)).map fs_item :=
        List.append_cons acc (fs_item f) _
      rw [hcons]
      by_cases hcap : mi ≤ (acc ++ [fs_item f]).length
      · rw [if_pos hcap]
        have hlen : (acc ++ [fs_item f]).length = max mi 1 := by
          simp only [List.length_append, List.length_cons, List.length_nil] at hacc hcap ⊢
          omega
        rw [if_pos (by rw [List.length_append]; omega)]
        rw [List.take_left' hlen]
      · rw [if_neg hcap]
        have hlt : (acc ++ [fs_item f]).length < max mi 1 := by
          simp only [List.length_append, List.length_cons, List.length_nil] at hacc hcap ⊢
          omega
        rw [ih (acc ++ [fs_item f]) hlt]
    · rw [if_neg hf]
      rw [ih acc hacc]
      have hfilter : List.filter (fun f => f.is_file) (f :: fs) =
          fs.filter (fun f => f.is_file) := by
        simp [List.filter_cons, hf]
      rw [hfilter]

theorem llr_all_cons_none (roots : List (Option (List FsEntry))) :
    llr_all (none :: roots) = llr_all roots := by
  simp [llr_all]

theorem llr_all_cons_some (fs : List FsEntry) (roots : List (Option (List FsEntry))) :
    llr_all (some fs :: roots) = root_items fs ++ llr_all roots := by
  simp [llr_all]

theorem llr_roots_spec (mi : ℕ) :
    ∀ (roots : List (Option (List FsEntry))) (acc : List Dict), acc.length < max mi 1 →
      llr_roots mi roots acc = (acc ++ llr_all roots).take (max mi 1) := by
  intro roots
  induction roots with
  | nil =>
    intro acc hacc
    rw [llr_roots, llr_all]
    simp only [List.filterMap_nil, List.map_nil, List.flatten_nil, List.append_nil]
    exact (List.take_all_of_le (le_of_lt hacc)).symm
  | cons root roots ih =>
    intro acc hacc
    cases root with
    | none =>
      rw [llr_roots, ih acc hacc, llr_all_cons_none]
    | some fs =>
      have hspec := llr_files_spec mi
        (stable_sort (fun a b => decide (fs_sort_key b < fs_sort_key a)) fs) acc hacc
      rw [llr_roots, llr_all_cons_some]
      by_cases hcap : max mi 1 ≤ (acc ++
          ((stable_sort (fun a b => decide (fs_sort_key b < fs_sort_key a)) fs).filter
            (fun f => f.is_file)).map fs_item).length
      · rw [if_pos hcap] at hspec
        simp only [hspec]
        rw [root_items, ← List.append_assoc]
        rw [List.take_append_of_le_length hcap]
      · rw [if_neg hcap] at hspec
        simp only [hspec]
        have hlt := lt_of_not_le (fun hge => hcap hge)
        rw [ih _ (not_le.mp hcap), root_items, ← List.append_assoc]

/-- C4 counterexample: the claim fails on the code in two ways.  With
`max_items = 0` a single-file root still yields one entry, so the result
is not capped at `max_items` for every count; and entries from a later
root follow entries from an earlier root regardless of their modification
times, so the combined result is not newest-modified-first across roots
(the source sorts within each root only). -/
theorem c4_cap_and_cross_root_order_fail :
    (¬ (∀ (roots : List (Option (List FsEntry))) (mi : ℕ),
        (list_local_recursive roots mi).length ≤ mi)) ∧
    (¬ (∀ (roots : List (Option (List FsEntry))) (mi : ℕ),
        (list_local_recursive roots mi).Pairwise
          (fun a b => str_lt (time_val a) (time_val b) = false))) := by
  constructor
  · intro h
    exact absurd
      (h [some [{ name := "a", path := "r1/a", size := 0, mtime := 10, is_file := true }]] 0)
      (by decide)
  · intro h
    have h2 := h
      [some [{ name := "a", path := "r1/a", size := 0, mtime := 10, is_file := true }],
       some [{ name := "b", path := "r2/b", size := 0, mtime := 20, is_file := true }]] 200
    rw [show list_local_recursive
      [some [{ name := "a", path := "r1/a", size := 0, mtime := 10, is_file := true }],
       some [{ name := "b", path := "r2/b", size := 0, mtime := 20, is_file := true }]] 200 =
        [fs_item { name := "a", path := "r1/a", size := 0, mtime := 10, is_file := true },
         fs_item { name := "b", path := "r2/b", size := 0, mtime := 20, is_file := true }]
      from by decide] at h2
    have h3 := (List.pairwise_cons.mp h2).1 _ (List.mem_singleton.mpr rfl)
    exact absurd h3 (by decide)

/-- C4 amended: `list_local_recursive` equals the first `max max_items 1`
items of the concatenation, in argument order, of each existing root's
listing (so with `max_items = 0` one item can still be returned, and the
newest-first order holds within each root, not across roots); for
`max_items ≥ 1` the result is capped at `max_items`; non-existent roots
are skipped, and when no root exists the result is empty; within each
root the kept file entries are ordered newest-modification-time-first. -/
theorem c4_capped_concatenation_of_sorted_roots :
    (∀ (roots : List (Option (List FsEntry))) (mi : ℕ),
      list_local_recursive roots mi = (llr_all roots).take (max mi 1)) ∧
    (∀ (roots : List (Option (List FsEntry))) (mi : ℕ), 1 ≤ mi →
      (list_local_recursive roots mi).length ≤ mi) ∧
    (∀ (roots : List (Option (List FsEntry))) (mi : ℕ), (∀ root ∈ roots, root = none) →
      list_local_recursive roots mi = []) ∧
    (∀ fs : List FsEntry,
      (((stable_sort (fun a b => decide (fs_sort_key b < fs_sort_key a)) fs).filter
          (fun f => f.is_file)).map (fun f => f.mtime)).Pairwise
        (fun a b : ℤ => b ≤ a)) := by
  have hchar : ∀ (roots : List (Option (List FsEntry))) (mi : ℕ),
      list_local_recursive roots mi = (llr_all roots).take (max mi 1) := by
    intro roots mi
    rw [list_local_recursive, llr_roots_spec mi roots [] (by simp only [List.length_nil]; omega)]
    rfl
  refine ⟨hchar, ?_, ?_, ?_⟩
  · intro roots mi hmi
    rw [hchar]
    have := List.length_take (max mi 1) (llr_all roots)
    omega
  · intro roots mi hnone
    rw [hchar]
    have : llr_all roots = [] := by
      rw [llr_all]
      have : roots.filterMap id = [] := by
        induction roots with
        | nil => rfl
        | cons root roots ih2 =>
          have h1 : root = none := hnone root (List.mem_cons_self _ _)
          subst h1
          simp only [List.filterMap_cons_none, id]
          exact ih2 (fun r hr => hnone r (List.mem_cons_of_mem _ hr))
      rw [this]
      rfl
    rw [this, List.take_nil]
  · intro fs
    have hsort := pairwise_stable_sort (fun a b => decide (fs_sort_key b < fs_sort_key a))
      (fun a b hab => by
        simp only [decide_eq_true_eq] at hab
        simpa using not_lt_of_gt hab)
      (fun a b c hab hcb => by
        simp only [decide_eq_true_eq] at hab
        simp only [decide_eq_false_iff_not] at hcb ⊢
        intro hca
        exact hcb (lt_trans hab hca))
      fs
    have hfiltered := hsort.sublist
      (@List.filter_sublist _ (fun f => f.is_file)
        (stable_sort (fun a b => decide (fs_sort_key b < fs_sort_key a)) fs))
    have hmapped : (((stable_sort (fun a b => decide (fs_sort_key b < fs_sort_key a)) fs).filter
        (fun f => f.is_file))).Pairwise (fun a b => b.mtime ≤ a.mtime) := by
      refine hfiltered.imp_of_mem ?_
      intro a b ha hb hab
      have ha2 : a.is_file = true := (List.mem_filter.mp ha).2
      have hb2 : b.is_file = true := (List.mem_filter.mp hb).2
      simp only [decide_eq_false_iff_not, fs_sort_key, ha2, hb2, if_pos] at hab
      omega
    exact hmapped.map _ (fun a b h => h)

theorem c4_capped_concatenation_of_sorted_roots_witness :
    (list_local_recursive
      [some [{ name := "a", path := "r1/a", size := 0, mtime := 10, is_file := true }]]
      200).length ≤ 200 ∧
    list_local_recursive [none, none] 7 = [] :=
  ⟨c4_capped_concatenation_of_sorted_roots.2.1
    [some [{ name := "a", path := "r1/a", size := 0, mtime := 10, is_file := true }]] 200
    (by decide),
   c4_capped_concatenation_of_sorted_roots.2.2.1 [none, none] 7 (by decide)⟩

end ProxmoxB2
